import Mathlib

/-!
# CubularEngine: entity physics, bounding boxes and the per-frame force pass

A shallow embedding of `GameEntity.cpp` and of the gameplay-update block of
`Main.cpp`.

Modelling conventions

* `float` is idealised as `ℚ`: exact arithmetic, no rounding, no NaN.
* `glm::vec3` is `Vec3`; `+`, `-`, `vec * float` and `glm::dot` are the
  componentwise rational operations.
* The glm calls that need square roots or trigonometry (`normalize`, `length`,
  `translate`, `rotate`, `scale`, `identity`) are not part of the repository;
  they are passed in as a record `GLM M`, with `M` the type of `glm::mat4`.
* `Mesh.h` is not among the sources. The two members that `CalculateBox` reads
  are kept: `vertCount`, and `vertices` as the map from an index to the float
  stored there.
* The arguments that reach `glm::normalize` are recorded by `crossProducts`
  (for `GetNormals`) and `dirArgs` (for the force loop), which repeat the code
  up to the call.
-/

namespace CubularEngine

/-! ## Vectors -/

/-- A `glm::vec3` with rational components. -/
@[ext]
structure Vec3 where
  x : ℚ
  y : ℚ
  z : ℚ
deriving DecidableEq, Repr

namespace Vec3

instance : Zero Vec3 := ⟨⟨0, 0, 0⟩⟩

instance : Add Vec3 := ⟨fun a b => ⟨a.x + b.x, a.y + b.y, a.z + b.z⟩⟩

instance : Sub Vec3 := ⟨fun a b => ⟨a.x - b.x, a.y - b.y, a.z - b.z⟩⟩

/-- The product `vec3 * float`. -/
instance : HMul Vec3 ℚ Vec3 := ⟨fun a s => ⟨a.x * s, a.y * s, a.z * s⟩⟩

instance : Inhabited Vec3 := ⟨0⟩

/-- Vector addition is a commutative monoid, so that sums over bodies can be
written with `∑`. -/
instance : AddCommMonoid Vec3 where
  add_assoc a b c := Vec3.ext (add_assoc a.x b.x c.x) (add_assoc a.y b.y c.y) (add_assoc a.z b.z c.z)
  zero_add a := Vec3.ext (zero_add a.x) (zero_add a.y) (zero_add a.z)
  add_zero a := Vec3.ext (add_zero a.x) (add_zero a.y) (add_zero a.z)
  add_comm a b := Vec3.ext (add_comm a.x b.x) (add_comm a.y b.y) (add_comm a.z b.z)
  nsmul := nsmulRec

end Vec3

/-- The scalar product `glm::dot`. -/
def dot (a b : Vec3) : ℚ := a.x * b.x + a.y * b.y + a.z * b.z

/-- Componentwise order on vectors, used to state box properties. -/
def Vec3.le (a b : Vec3) : Prop := a.x ≤ b.x ∧ a.y ≤ b.y ∧ a.z ≤ b.z

instance (a b : Vec3) : Decidable (Vec3.le a b) := by
  unfold Vec3.le; infer_instance

/-- Componentwise strict order on vectors. -/
def Vec3.lt (a b : Vec3) : Prop := a.x < b.x ∧ a.y < b.y ∧ a.z < b.z

instance (a b : Vec3) : Decidable (Vec3.lt a b) := by
  unfold Vec3.lt; infer_instance

/-! ## Data model -/

/-- The axis-aligned box `AABB` with its two corners. -/
structure AABB where
  min : Vec3
  max : Vec3
deriving DecidableEq, Repr

/-- The part of `Mesh` that `GameEntity` reads: `vertices[i]` and `vertCount`. -/
structure Mesh where
  vertices : Nat → ℚ
  vertCount : Nat

/-- The external glm operations used by the entity code. -/
structure GLM (M : Type) where
  identity : M
  translate : M → Vec3 → M
  rotate : M → ℚ → Vec3 → M
  scale : M → Vec3 → M
  normalize : Vec3 → Vec3
  length : Vec3 → ℚ

/-- The members of `GameEntity` that the physics and collision code touches.
`material`, `startQuat` and `rotQuat` are used for rendering only and are
left out. -/
structure GameEntity (M : Type) where
  mesh : Mesh
  position : Vec3
  eulerAngles : Vec3
  scale : Vec3
  worldMatrix : M
  velocity : Vec3
  acceleration : Vec3
  startPos : Vec3
  startVel : Vec3
  box : AABB
  mass : ℚ
  timer : ℚ
  activated : Bool
  gravity : Bool
  enabled : Bool
  orbital : Bool

variable {M : Type}

/-! ## `GameEntity.cpp` -/

/-- `GameEntity::SetAcceleration`. -/
def SetAcceleration (acc : Vec3) (e : GameEntity M) : GameEntity M :=
  { e with acceleration := acc }

/-- `GameEntity::Update`: gravity override, velocity then position, and the
rebuild of the world matrix. -/
def Update (glm : GLM M) (dt : ℚ) (e : GameEntity M) : GameEntity M :=
  if e.enabled then
    let e1 := if e.gravity then { e with acceleration := ⟨0, -(46 / 10), 0⟩ } else e
    let e2 := { e1 with velocity := e1.velocity + e1.acceleration * dt }
    let e3 := { e2 with position := e2.position + e2.velocity * dt }
    let e4 := { e3 with worldMatrix := glm.identity }
    let e5 := { e4 with worldMatrix := glm.translate e4.worldMatrix e4.position }
    let e6 :=
      if !e5.orbital then
        let e5a := { e5 with eulerAngles := { e5.eulerAngles with y := e5.eulerAngles.y + 1 / 100 } }
        { e5a with worldMatrix := glm.rotate e5a.worldMatrix e5a.eulerAngles.y ⟨0, 1, 0⟩ }
      else e5
    { e6 with worldMatrix := glm.scale e6.worldMatrix e6.scale }
  else e

/-- The constructor `GameEntity::GameEntity`. The members it leaves unassigned
(`velocity`, `acceleration`, `startVel`, `box`, `timer`) are taken as zero. -/
def GameEntity.ctor (glm : GLM M) (mesh : Mesh) (position eulerAngles scale : Vec3) : GameEntity M :=
  { mesh := mesh, position := position, eulerAngles := eulerAngles, scale := scale,
    worldMatrix := glm.identity, velocity := 0, acceleration := 0,
    startPos := position, startVel := 0, box := ⟨0, 0⟩, mass := 1, timer := 0,
    activated := false, gravity := false, enabled := true, orbital := true }

/-- One iteration of the vertex loop of `CalculateBox`, at loop index `i`:
the six guarded assignments to the components of `newBox`. -/
def boxStep (position : Vec3) (vertices : Nat → ℚ) (newBox : AABB) (i : Nat) : AABB :=
  let tempVert : Vec3 :=
    ⟨position.x + vertices i, position.y + vertices (i + 1), position.z + vertices (i + 2)⟩
  let maxX := if tempVert.x > newBox.max.x then tempVert.x else newBox.max.x
  let maxY := if tempVert.y > newBox.max.y then tempVert.y else newBox.max.y
  let maxZ := if tempVert.z > newBox.max.z then tempVert.z else newBox.max.z
  let minX := if tempVert.x < newBox.min.x then tempVert.x else newBox.min.x
  let minY := if tempVert.y < newBox.min.y then tempVert.y else newBox.min.y
  let minZ := if tempVert.z < newBox.min.z then tempVert.z else newBox.min.z
  ⟨⟨minX, minY, minZ⟩, ⟨maxX, maxY, maxZ⟩⟩

/-- The box accumulated by the loop `for (i = 0; i < n; i++)` of `CalculateBox`,
starting from the point box at `position`. -/
def boxLoop (position : Vec3) (vertices : Nat → ℚ) (n : Nat) : AABB :=
  (List.range n).foldl (boxStep position vertices) ⟨position, position⟩

/-- `GameEntity::CalculateBox`. -/
def CalculateBox (e : GameEntity M) : GameEntity M :=
  let newBox := boxLoop e.position e.mesh.vertices e.mesh.vertCount
  { e with box := ⟨⟨newBox.min.x, newBox.min.y, newBox.min.z⟩, ⟨newBox.max.x, newBox.max.y, newBox.max.z⟩⟩ }

/-- `GameEntity::GetPoints`: the eight corners, in the order they are pushed. -/
def GetPoints (e : GameEntity M) : List Vec3 :=
  [ ⟨e.box.min.x, e.box.min.y, e.box.min.z⟩,
    ⟨e.box.min.x, e.box.max.y, e.box.min.z⟩,
    ⟨e.box.min.x, e.box.max.y, e.box.max.z⟩,
    ⟨e.box.min.x, e.box.min.y, e.box.max.z⟩,
    ⟨e.box.max.x, e.box.max.y, e.box.max.z⟩,
    ⟨e.box.max.x, e.box.max.y, e.box.min.z⟩,
    ⟨e.box.max.x, e.box.min.y, e.box.min.z⟩,
    ⟨e.box.max.x, e.box.min.y, e.box.max.z⟩ ]

/-- The hand-written cross product of `GetNormals`. -/
def crossUV (U V : Vec3) : Vec3 :=
  ⟨U.y * V.z - U.z * V.y, U.z * V.x - U.x * V.z, U.x * V.y - U.y * V.x⟩

/-- `GameEntity::GetNormals`. -/
def GetNormals (glm : GLM M) (e : GameEntity M) : List Vec3 :=
  let points := GetPoints e
  let U := points.getD 1 0 - points.getD 0 0
  let V := points.getD 2 0 - points.getD 0 0
  let U1 := points.getD 5 0 - points.getD 4 0
  let V1 := points.getD 2 0 - points.getD 4 0
  let U2 := points.getD 1 0 - points.getD 0 0
  let V2 := points.getD 5 0 - points.getD 0 0
  [glm.normalize (crossUV U V), glm.normalize (crossUV U1 V1), glm.normalize (crossUV U2 V2)]

/-- One iteration of the projection loop of `GetMinMax`. -/
def minMaxStep (axis : Vec3) (acc : ℚ × ℚ) (p : Vec3) : ℚ × ℚ :=
  let currProj := dot p axis
  let min := if acc.1 > currProj then currProj else acc.1
  let max := if currProj > acc.2 then currProj else acc.2
  (min, max)

/-- `GameEntity::GetMinMax`: the pair `(min, max)` written to the two
reference parameters. -/
def GetMinMax (e : GameEntity M) (axis : Vec3) : ℚ × ℚ :=
  let points := GetPoints e
  let min := dot (points.getD 0 0) axis
  ((points.drop 1).foldl (minMaxStep axis) (min, min))

/-- `GameEntity::Reset`. -/
def Reset (e : GameEntity M) : GameEntity M :=
  { e with position := e.startPos, velocity := e.startVel, enabled := true }

/-! ## `Main.cpp`: the force pass of the gameplay update -/

/-- The value of `vel` after the `if (vel == 0)` guard of the force loop. -/
def speed (glm : GLM M) (e : GameEntity M) : ℚ :=
  let vel := glm.length e.velocity
  if vel = 0 then 2 / 10 else vel

/-- The inner loop over `j`: the value of `acc` for body `i`. -/
def accFor {n : Nat} (glm : GLM M) (cubes : Fin n → GameEntity M) (i : Fin n) : Vec3 :=
  (List.finRange n).foldl
    (fun acc j =>
      if i ≠ j then
        if !(cubes j).orbital then
          let dir := glm.normalize ((cubes j).position - (cubes i).position)
          let vel := speed glm (cubes i)
          acc + dir * vel
        else acc
      else acc)
    (0 : Vec3)

/-- The outer loop over `i`: each body gets `SetAcceleration(acc)` in turn,
in place. -/
def forcePass {n : Nat} (glm : GLM M) (cubes : Fin n → GameEntity M) : Fin n → GameEntity M :=
  (List.finRange n).foldl
    (fun cs i => Function.update cs i (SetAcceleration (accFor glm cs i) (cs i)))
    cubes

/-! ## Specification-side notions and concrete bodies -/

/-- The `k`-th vertex of a mesh whose data is a flat array of `(x, y, z)`
triplets. -/
def tripletAt (m : Mesh) (k : Nat) : Vec3 :=
  ⟨m.vertices (3 * k), m.vertices (3 * k + 1), m.vertices (3 * k + 2)⟩

/-- The point `p` lies in the box `b`, bounds included. -/
def AABB.Contains (b : AABB) (p : Vec3) : Prop := Vec3.le b.min p ∧ Vec3.le p b.max

instance (b : AABB) (p : Vec3) : Decidable (b.Contains p) := by
  unfold AABB.Contains; infer_instance

/-- A mesh given by the list of its floats; `vertCount` is supplied apart. -/
def Mesh.ofList (l : List ℚ) (vertCount : Nat) : Mesh :=
  { vertices := fun i => l.getD i 0, vertCount := vertCount }

/-- A symbolic `glm::mat4`: the chain of glm calls that built the matrix. -/
inductive MatExpr where
  | identity : MatExpr
  | translate : MatExpr → Vec3 → MatExpr
  | rotate : MatExpr → ℚ → Vec3 → MatExpr
  | scale : MatExpr → Vec3 → MatExpr
deriving DecidableEq, Repr

/-- The sum of the absolute values of the components. On a vector parallel
to a coordinate axis it is the Euclidean length. -/
def taxicab (v : Vec3) : ℚ := |v.x| + |v.y| + |v.z|

/-- A rational instance of the glm operations for concrete evaluation:
matrices are symbolic, lengths are taxicab lengths. It agrees with glm on
vectors parallel to a coordinate axis. -/
def axisGLM : GLM MatExpr :=
  { identity := MatExpr.identity
    translate := MatExpr.translate
    rotate := MatExpr.rotate
    scale := MatExpr.scale
    normalize := fun v => v * (taxicab v)⁻¹
    length := taxicab }

/-- A body at the origin whose mesh is the two triplets `(0,0,0)`, `(0,0,5)`. -/
def twoTripletBody : GameEntity MatExpr :=
  GameEntity.ctor axisGLM (Mesh.ofList [0, 0, 0, 0, 0, 5] 2) 0 0 ⟨1, 1, 1⟩

/-- A body at `(1, 2, 3)` with an empty mesh. -/
def emptyMeshBody : GameEntity MatExpr :=
  GameEntity.ctor axisGLM (Mesh.ofList [] 0) ⟨1, 2, 3⟩ 0 ⟨1, 1, 1⟩

/-- The acceleration that `Update` integrates: the gravity vector when the
gravity flag is set, the stored acceleration otherwise. -/
def stepAcceleration (e : GameEntity M) : Vec3 :=
  if e.gravity then ⟨0, -(46 / 10), 0⟩ else e.acceleration

/-- A body at `(1, 1, 1)` with velocity `(1, 0, 0)` and acceleration `(2, 0, 0)`. -/
def movingBody : GameEntity MatExpr :=
  { GameEntity.ctor axisGLM (Mesh.ofList [] 0) ⟨1, 1, 1⟩ 0 ⟨1, 1, 1⟩ with
    velocity := ⟨1, 0, 0⟩, acceleration := ⟨2, 0, 0⟩ }

/-- The fixed acceleration written by `Update` when the gravity flag is set. -/
def gravityVector : Vec3 := ⟨0, -(46 / 10), 0⟩

/-- A body at rest at the origin with the gravity flag set and an attraction
acceleration `(7, 8, 9)` left over from the force pass. -/
def fallingBody : GameEntity MatExpr :=
  { GameEntity.ctor axisGLM (Mesh.ofList [] 0) 0 0 ⟨1, 1, 1⟩ with
    gravity := true, acceleration := ⟨7, 8, 9⟩ }

/-- A disabled, non-orbital body with the gravity flag set, moving and
accelerated. -/
def disabledBody : GameEntity MatExpr :=
  { GameEntity.ctor axisGLM (Mesh.ofList [] 0) ⟨1, 2, 3⟩ ⟨0, 1, 0⟩ ⟨1, 1, 1⟩ with
    enabled := false, gravity := true, orbital := false,
    velocity := ⟨1, 0, 0⟩, acceleration := ⟨0, 0, 2⟩ }

/-- The corner of `b` picked by three choices, `true` for the `max` bound. -/
def cornerOf (b : AABB) (c : Bool × Bool × Bool) : Vec3 :=
  ⟨if c.1 then b.max.x else b.min.x, if c.2.1 then b.max.y else b.min.y,
    if c.2.2 then b.max.z else b.min.z⟩

/-- The eight corners `{min.x, max.x} × {min.y, max.y} × {min.z, max.z}` of a
box, one per combination. -/
def boxCorners (b : AABB) : List Vec3 :=
  [b.min.x, b.max.x].flatMap fun x =>
    [b.min.y, b.max.y].flatMap fun y =>
      [b.min.z, b.max.z].map fun z => ⟨x, y, z⟩

/-- Modelled from the spec: the narrow-phase test `Overlap`, whose code
(`KDTree.cpp`) is not among the sources. Following §4.4, the axes are the
normals of `A` followed by those of `B`; both boxes are projected on each
axis with `GetMinMax`, and `maxA < minB || maxB < minA` on any axis means the
boxes are separated. -/
def Overlap (glm : GLM M) (A B : GameEntity M) : Bool :=
  (GetNormals glm A ++ GetNormals glm B).all fun n =>
    let minMaxA := GetMinMax A n
    let minMaxB := GetMinMax B n
    !(decide (minMaxA.2 < minMaxB.1) || decide (minMaxB.2 < minMaxA.1))

/-- What the theorems on the separating-axis test ask of `glm::normalize`:
a nonzero vector is mapped to a positive multiple of itself. -/
def PositiveNormalize (glm : GLM M) : Prop :=
  ∀ v : Vec3, v ≠ 0 → ∃ c : ℚ, 0 < c ∧ glm.normalize v = v * c

/-- The overlap of two boxes coordinate by coordinate. -/
def AABB.Intersects (a b : AABB) : Prop := Vec3.le a.min b.max ∧ Vec3.le b.min a.max

/-- A body whose box is the cube of half-extent `1/2` centred at `center`. -/
def unitCubeAt (center : Vec3) : GameEntity MatExpr :=
  { GameEntity.ctor axisGLM (Mesh.ofList [] 0) center 0 ⟨1, 1, 1⟩ with
    box := ⟨center - ⟨1 / 2, 1 / 2, 1 / 2⟩, center + ⟨1 / 2, 1 / 2, 1 / 2⟩⟩ }

/-- The bodies `cs` and `cubes` agree on what the force loop reads. -/
def SameReads {n : Nat} (cs cubes : Fin n → GameEntity M) : Prop :=
  ∀ k, (cs k).position = (cubes k).position ∧ (cs k).velocity = (cubes k).velocity ∧
    (cs k).orbital = (cubes k).orbital

/-- The three vectors that `GetNormals` hands to `glm::normalize`, in the
order of the three `push_back` calls. -/
def crossProducts (e : GameEntity M) : List Vec3 :=
  let points := GetPoints e
  let U := points.getD 1 0 - points.getD 0 0
  let V := points.getD 2 0 - points.getD 0 0
  let U1 := points.getD 5 0 - points.getD 4 0
  let V1 := points.getD 2 0 - points.getD 4 0
  let U2 := points.getD 1 0 - points.getD 0 0
  let V2 := points.getD 5 0 - points.getD 0 0
  [crossUV U V, crossUV U1 V1, crossUV U2 V2]

/-- What the unit-length theorems ask of `glm::normalize`: a nonzero vector
parallel to a coordinate axis is divided by the absolute value of its only
nonzero component, which is its length. -/
def ExactOnAxes (glm : GLM M) : Prop :=
  ∀ a : ℚ, a ≠ 0 →
    glm.normalize ⟨a, 0, 0⟩ = ⟨a / |a|, 0, 0⟩ ∧
    glm.normalize ⟨0, a, 0⟩ = ⟨0, a / |a|, 0⟩ ∧
    glm.normalize ⟨0, 0, a⟩ = ⟨0, 0, a / |a|⟩

/-- The box of `e` shifted by `d`. -/
def AABB.shift (b : AABB) (d : Vec3) : AABB := ⟨b.min + d, b.max + d⟩

/-- A body whose box is `[1,3] × [2,7] × [3,4]`. -/
def slabBody : GameEntity MatExpr :=
  { GameEntity.ctor axisGLM (Mesh.ofList [] 0) ⟨2, 4, 3⟩ 0 ⟨1, 1, 1⟩ with
    box := ⟨⟨1, 2, 3⟩, ⟨3, 7, 4⟩⟩ }

/-- A body at the origin whose mesh is the two triplets `(-1/2,-1/2,-1/2)` and
`(1/2,1/2,1/2)`. -/
def twoCornerBody : GameEntity MatExpr :=
  GameEntity.ctor axisGLM (Mesh.ofList [-(1 / 2), -(1 / 2), -(1 / 2), 1 / 2, 1 / 2, 1 / 2] 2) 0 0
    ⟨1, 1, 1⟩

/-- The vectors that the inner loop of the force pass hands to
`glm::normalize` for body `i`, in loop order: the loop of `accFor` with the
argument of each `normalize` call recorded. -/
def dirArgs {n : Nat} (cubes : Fin n → GameEntity M) (i : Fin n) : List Vec3 :=
  (List.finRange n).foldl
    (fun args j =>
      if i ≠ j then
        if !(cubes j).orbital then
          args ++ [(cubes j).position - (cubes i).position]
        else args
      else args)
    []

/-- A body moving at `(1/10, 0, 0)`, of speed `1/10`. -/
def slowBody : GameEntity MatExpr :=
  { GameEntity.ctor axisGLM (Mesh.ofList [] 0) 0 0 ⟨1, 1, 1⟩ with velocity := ⟨1 / 10, 0, 0⟩ }

/-- Two bodies: body 0 at rest at the origin, enabled and orbital; body 1 at
`(1, 0, 0)`, non-orbital and disabled, holding the acceleration `(7, 8, 9)`. -/
def ghostPair : Fin 2 → GameEntity MatExpr := fun k =>
  if k = 0 then GameEntity.ctor axisGLM (Mesh.ofList [] 0) 0 0 ⟨1, 1, 1⟩
  else
    { GameEntity.ctor axisGLM (Mesh.ofList [] 0) ⟨1, 0, 0⟩ 0 ⟨1, 1, 1⟩ with
      orbital := false, enabled := false, acceleration := ⟨7, 8, 9⟩ }

/-- Two bodies spawned at the camera position `(0, 0, 10)`: body 0 as the
left click makes it (orbital), body 1 as the right click makes it
(non-orbital, mass 5). -/
def spawnedPair : Fin 2 → GameEntity MatExpr := fun k =>
  if k = 0 then
    { GameEntity.ctor axisGLM (Mesh.ofList [] 0) ⟨0, 0, 10⟩ 0 ⟨1 / 2, 1 / 2, 1 / 2⟩ with
      velocity := ⟨0, 0, -1⟩ }
  else
    { GameEntity.ctor axisGLM (Mesh.ofList [] 0) ⟨0, 0, 10⟩ 0 ⟨1, 1, 1⟩ with
      velocity := ⟨0, 0, -2⟩, orbital := false, mass := 5 }

/-! ## Basic lemmas -/

@[simp]
theorem Vec3.add_x (a b : Vec3) : (a + b).x = a.x + b.x := rfl
@[simp]
theorem Vec3.add_y (a b : Vec3) : (a + b).y = a.y + b.y := rfl
@[simp]
theorem Vec3.add_z (a b : Vec3) : (a + b).z = a.z + b.z := rfl
@[simp]
theorem Vec3.sub_x (a b : Vec3) : (a - b).x = a.x - b.x := rfl
@[simp]
theorem Vec3.sub_y (a b : Vec3) : (a - b).y = a.y - b.y := rfl
@[simp]
theorem Vec3.sub_z (a b : Vec3) : (a - b).z = a.z - b.z := rfl
@[simp]
theorem Vec3.mul_x (a : Vec3) (s : ℚ) : (a * s).x = a.x * s := rfl
@[simp]
theorem Vec3.mul_y (a : Vec3) (s : ℚ) : (a * s).y = a.y * s := rfl
@[simp]
theorem Vec3.mul_z (a : Vec3) (s : ℚ) : (a * s).z = a.z * s := rfl
@[simp]
theorem Vec3.zero_x : (0 : Vec3).x = 0 := rfl
@[simp]
theorem Vec3.zero_y : (0 : Vec3).y = 0 := rfl
@[simp]
theorem Vec3.zero_z : (0 : Vec3).z = 0 := rfl

/-! ## `CalculateBox` -/

theorem boxLoop_zero (p : Vec3) (v : Nat → ℚ) : boxLoop p v 0 = ⟨p, p⟩ := rfl

theorem boxLoop_succ (p : Vec3) (v : Nat → ℚ) (n : Nat) :
    boxLoop p v (n + 1) = boxStep p v (boxLoop p v n) n := by
  simp [boxLoop, List.range_succ, List.foldl_append]

/-- A step of the vertex loop keeps the body position inside the box. -/
theorem boxStep_contains (p : Vec3) (v : Nat → ℚ) (b : AABB) (i : Nat)
    (h : b.Contains p) : (boxStep p v b i).Contains p := by
  obtain ⟨⟨h1, h2, h3⟩, h4, h5, h6⟩ := h
  unfold boxStep
  simp only [AABB.Contains, Vec3.le]
  refine ⟨⟨?_, ?_, ?_⟩, ?_, ?_, ?_⟩ <;> split_ifs <;> simp_all <;> linarith

theorem boxLoop_contains (p : Vec3) (v : Nat → ℚ) (n : Nat) :
    (boxLoop p v n).Contains p := by
  induction n with
  | zero => simp [boxLoop_zero, AABB.Contains, Vec3.le]
  | succ n ih => rw [boxLoop_succ]; exact boxStep_contains p v _ n ih


/-- A step of the vertex loop never shrinks the box. -/
theorem boxStep_grows (p : Vec3) (v : Nat → ℚ) (b : AABB) (i : Nat) (q : Vec3)
    (h : b.Contains q) : (boxStep p v b i).Contains q := by
  obtain ⟨⟨h1, h2, h3⟩, h4, h5, h6⟩ := h
  unfold boxStep
  simp only [AABB.Contains, Vec3.le]
  refine ⟨⟨?_, ?_, ?_⟩, ?_, ?_, ?_⟩ <;> split_ifs <;> linarith

/-- A step of the vertex loop takes in the window of three floats that starts
at the loop index. -/
theorem boxStep_takes_window (p : Vec3) (v : Nat → ℚ) (b : AABB) (i : Nat) :
    (boxStep p v b i).Contains ⟨p.x + v i, p.y + v (i + 1), p.z + v (i + 2)⟩ := by
  unfold boxStep
  simp only [AABB.Contains, Vec3.le]
  refine ⟨⟨?_, ?_, ?_⟩, ?_, ?_, ?_⟩ <;> split_ifs <;> linarith

/-- What the loop of `CalculateBox` encloses: the windows `(v[i], v[i+1],
v[i+2])` for the loop indices `i < n`, which advance by one float, not three. -/
theorem boxLoop_encloses_windows (p : Vec3) (v : Nat → ℚ) (n i : Nat) (hi : i < n) :
    (boxLoop p v n).Contains ⟨p.x + v i, p.y + v (i + 1), p.z + v (i + 2)⟩ := by
  induction n with
  | zero => omega
  | succ n ih =>
    rw [boxLoop_succ]
    rcases Nat.lt_succ_iff_lt_or_eq.mp hi with h | h
    · exact boxStep_grows p v _ n _ (ih h)
    · subst h; exact boxStep_takes_window p v _ i

@[simp]
theorem CalculateBox_box (e : GameEntity M) :
    (CalculateBox e).box = boxLoop e.position e.mesh.vertices e.mesh.vertCount := rfl

@[simp]
theorem CalculateBox_position (e : GameEntity M) :
    (CalculateBox e).position = e.position := rfl

/-! ## Claims on `CalculateBox` -/

/-- C1, at the failing input: for the mesh of the two triplets `(0,0,0)` and
`(0,0,5)` at the origin, `CalculateBox` returns the point box at the origin,
and the second translated vertex `(0,0,5)` is not inside it. -/
theorem CalculateBox_misses_second_triplet :
    (CalculateBox twoTripletBody).box = ⟨0, 0⟩ ∧
    twoTripletBody.position + tripletAt twoTripletBody.mesh 1 = ⟨0, 0, 5⟩ ∧
    ¬ (CalculateBox twoTripletBody).box.Contains
        (twoTripletBody.position + tripletAt twoTripletBody.mesh 1) := by
  have hbox : (CalculateBox twoTripletBody).box = ⟨0, 0⟩ := by
    simp [CalculateBox_box, boxLoop, boxStep, twoTripletBody, GameEntity.ctor, Mesh.ofList,
      List.range_succ]
    rfl
  have hv : twoTripletBody.position + tripletAt twoTripletBody.mesh 1 = ⟨0, 0, 5⟩ := by
    ext <;> simp [tripletAt, twoTripletBody, GameEntity.ctor, Mesh.ofList]
  refine ⟨hbox, hv, ?_⟩
  rw [hbox, hv]
  simp [AABB.Contains, Vec3.le]


/-- C2: for every body, whatever its position, vertex data and `vertCount`,
the box left by `CalculateBox` has `min ≤ max` on each coordinate and holds
the body position. -/
theorem CalculateBox_min_le_max (e : GameEntity M) :
    Vec3.le (CalculateBox e).box.min (CalculateBox e).box.max ∧
    (CalculateBox e).box.Contains (CalculateBox e).position := by
  have h := boxLoop_contains e.position e.mesh.vertices e.mesh.vertCount
  rw [CalculateBox_box, CalculateBox_position]
  refine ⟨?_, h⟩
  obtain ⟨⟨h1, h2, h3⟩, h4, h5, h6⟩ := h
  exact ⟨le_trans h1 h4, le_trans h2 h5, le_trans h3 h6⟩

/-- C9: with `vertCount == 0` the loop body never runs and `CalculateBox`
returns the point box `min == max == position`. -/
theorem CalculateBox_zero_vertices (e : GameEntity M) (h : e.mesh.vertCount = 0) :
    (CalculateBox e).box.min = e.position ∧ (CalculateBox e).box.max = e.position := by
  rw [CalculateBox_box, h, boxLoop_zero]
  exact ⟨rfl, rfl⟩

/-- C9 at a body with an empty mesh placed at `(1, 2, 3)`. -/
theorem CalculateBox_zero_vertices_witness :
    emptyMeshBody.mesh.vertCount = 0 ∧
    (CalculateBox emptyMeshBody).box.min = ⟨1, 2, 3⟩ ∧
    (CalculateBox emptyMeshBody).box.max = ⟨1, 2, 3⟩ :=
  ⟨rfl, CalculateBox_zero_vertices emptyMeshBody rfl⟩

/-! ## Claims on `Update` and `Reset` -/

/-- Velocity and position after `Update` on an enabled body. -/
theorem Update_enabled_step (glm : GLM M) (dt : ℚ) (e : GameEntity M)
    (h : e.enabled = true) :
    (Update glm dt e).velocity = e.velocity + stepAcceleration e * dt ∧
    (Update glm dt e).position = e.position + (e.velocity + stepAcceleration e * dt) * dt := by
  unfold Update stepAcceleration
  simp only [h, if_true]
  cases hg : e.gravity <;> cases ho : e.orbital <;> simp [hg, ho]

/-- C3: for an enabled body, `Update(dt)` sets the velocity to `v + a*dt` and
the position to `p + (v + a*dt)*dt`, with `a` the acceleration in force for
the step: the position moves with the new velocity. -/
theorem Update_semi_implicit_euler (glm : GLM M) (dt : ℚ) (e : GameEntity M)
    (h : e.enabled = true) :
    (Update glm dt e).velocity = e.velocity + stepAcceleration e * dt ∧
    (Update glm dt e).position = e.position + (e.velocity + stepAcceleration e * dt) * dt ∧
    (Update glm dt e).position = e.position + (Update glm dt e).velocity * dt := by
  have hs := Update_enabled_step glm dt e h
  refine ⟨hs.1, hs.2, ?_⟩
  rw [hs.1, hs.2]

/-- C3 at `movingBody` with `dt = 1/2`: the velocity becomes `(2, 0, 0)` and
the position `(2, 1, 1)`, which is not the `(3/2, 1, 1)` that the old velocity
would give. -/
theorem Update_semi_implicit_euler_witness :
    movingBody.enabled = true ∧
    (Update axisGLM (1 / 2) movingBody).velocity = ⟨2, 0, 0⟩ ∧
    (Update axisGLM (1 / 2) movingBody).position = ⟨2, 1, 1⟩ ∧
    (Update axisGLM (1 / 2) movingBody).position ≠ movingBody.position + movingBody.velocity * (1 / 2 : ℚ) := by
  have h := Update_semi_implicit_euler axisGLM (1 / 2) movingBody rfl
  have hv : (Update axisGLM (1 / 2) movingBody).velocity = ⟨2, 0, 0⟩ := by
    rw [h.1]; ext <;> norm_num [stepAcceleration, movingBody, GameEntity.ctor]
  have hp : (Update axisGLM (1 / 2) movingBody).position = ⟨2, 1, 1⟩ := by
    rw [h.2.2, hv]; ext <;> norm_num [movingBody, GameEntity.ctor]
  refine ⟨rfl, hv, hp, ?_⟩
  rw [hp]
  intro hc
  have := congrArg Vec3.x hc
  simp [movingBody, GameEntity.ctor] at this
  norm_num at this


/-- C4: for an enabled body with the gravity flag set, `Update(dt)` overwrites
the acceleration with `(0, -4.6, 0)`, so velocity and position after the step
are functions of `v`, `p` and `dt` alone; from rest at the origin with
`dt = 1` the step gives velocity `(0, -4.6, 0)` and position `(0, -4.6, 0)`. -/
theorem Update_gravity_wins (glm : GLM M) (dt : ℚ) (e : GameEntity M)
    (he : e.enabled = true) (hg : e.gravity = true) :
    (Update glm dt e).acceleration = gravityVector ∧
    (Update glm dt e).velocity = e.velocity + gravityVector * dt ∧
    (Update glm dt e).position = e.position + (e.velocity + gravityVector * dt) * dt ∧
    (∀ acc : Vec3, (Update glm dt (SetAcceleration acc e)).velocity = (Update glm dt e).velocity ∧
      (Update glm dt (SetAcceleration acc e)).position = (Update glm dt e).position) ∧
    (e.velocity = 0 → e.position = 0 → dt = 1 →
      (Update glm dt e).velocity = ⟨0, -(46 / 10), 0⟩ ∧
      (Update glm dt e).position = ⟨0, -(46 / 10), 0⟩) := by
  have hacc : (Update glm dt e).acceleration = gravityVector := by
    unfold Update gravityVector
    cases ho : e.orbital <;> simp [he, hg, ho]
  have h := Update_enabled_step glm dt e he
  have hs : stepAcceleration e = gravityVector := by simp [stepAcceleration, gravityVector, hg]
  rw [hs] at h
  refine ⟨hacc, h.1, h.2, ?_, ?_⟩
  · intro acc
    have h2 := Update_enabled_step glm dt (SetAcceleration acc e) he
    have hs2 : stepAcceleration (SetAcceleration acc e) = gravityVector := by
      simp [stepAcceleration, gravityVector, SetAcceleration, hg]
    rw [hs2] at h2
    exact ⟨h2.1.trans h.1.symm, h2.2.trans h.2.symm⟩
  · intro hv hp hdt
    rw [h.1, h.2, hv, hp, hdt]
    constructor <;> ext <;> simp [gravityVector]

/-- C4 at `fallingBody` with `dt = 1`: velocity and position both become
`(0, -4.6, 0)`, the stored acceleration `(7, 8, 9)` playing no part. -/
theorem Update_gravity_wins_witness :
    fallingBody.enabled = true ∧ fallingBody.gravity = true ∧
    fallingBody.acceleration = ⟨7, 8, 9⟩ ∧
    (Update axisGLM 1 fallingBody).acceleration = ⟨0, -(46 / 10), 0⟩ ∧
    (Update axisGLM 1 fallingBody).velocity = ⟨0, -(46 / 10), 0⟩ ∧
    (Update axisGLM 1 fallingBody).position = ⟨0, -(46 / 10), 0⟩ :=
  have h := Update_gravity_wins axisGLM 1 fallingBody rfl rfl
  ⟨rfl, rfl, rfl, h.1, h.2.2.2.2 rfl rfl rfl⟩

/-- C6: from any body state, `Reset()` followed by `Update(0)` leaves
`position == startPos`, `velocity == startVel` and `enabled == true`. -/
theorem Reset_then_Update_zero (glm : GLM M) (e : GameEntity M) :
    (Update glm 0 (Reset e)).position = e.startPos ∧
    (Update glm 0 (Reset e)).velocity = e.startVel ∧
    (Update glm 0 (Reset e)).enabled = true := by
  have h := Update_enabled_step glm 0 (Reset e) rfl
  refine ⟨?_, ?_, ?_⟩
  · rw [h.2]; ext <;> simp [Reset]
  · rw [h.1]; ext <;> simp [Reset]
  · unfold Update
    cases hg : e.gravity <;> cases ho : e.orbital <;> simp [Reset, hg, ho]

/-- C10: for a body with `enabled == false`, `Update(dt)` changes nothing:
position, velocity, acceleration, eulerAngles and worldMatrix are as before,
whatever the gravity and orbital flags. -/
theorem Update_disabled (glm : GLM M) (dt : ℚ) (e : GameEntity M)
    (h : e.enabled = false) :
    Update glm dt e = e ∧
    (Update glm dt e).position = e.position ∧
    (Update glm dt e).velocity = e.velocity ∧
    (Update glm dt e).acceleration = e.acceleration ∧
    (Update glm dt e).eulerAngles = e.eulerAngles ∧
    (Update glm dt e).worldMatrix = e.worldMatrix := by
  have hu : Update glm dt e = e := by simp [Update, h]
  rw [hu]
  exact ⟨rfl, rfl, rfl, rfl, rfl, rfl⟩

/-- C10 at `disabledBody` with `dt = 3`. -/
theorem Update_disabled_witness :
    disabledBody.enabled = false ∧ disabledBody.gravity = true ∧ disabledBody.orbital = false ∧
    (Update axisGLM 3 disabledBody).position = ⟨1, 2, 3⟩ ∧
    (Update axisGLM 3 disabledBody).velocity = ⟨1, 0, 0⟩ ∧
    (Update axisGLM 3 disabledBody).acceleration = ⟨0, 0, 2⟩ ∧
    (Update axisGLM 3 disabledBody).eulerAngles = ⟨0, 1, 0⟩ ∧
    (Update axisGLM 3 disabledBody).worldMatrix = MatExpr.identity :=
  have h := Update_disabled axisGLM 3 disabledBody rfl
  ⟨rfl, rfl, rfl, h.2.1, h.2.2.1, h.2.2.2.1, h.2.2.2.2.1, h.2.2.2.2.2⟩


/-! ## Claims on `GetPoints`, `GetMinMax` and the separating-axis test -/

theorem minMaxStep_eq (axis : Vec3) (acc : ℚ × ℚ) (p : Vec3) :
    minMaxStep axis acc p = (min acc.1 (dot p axis), max acc.2 (dot p axis)) := by
  unfold minMaxStep
  ext
  · simp only [gt_iff_lt]
    split_ifs with h
    · exact (min_eq_right h.le).symm
    · exact (min_eq_left (not_lt.mp h)).symm
  · simp only [gt_iff_lt]
    split_ifs with h
    · exact (max_eq_right h.le).symm
    · exact (max_eq_left (not_lt.mp h)).symm

/-- The projection loop keeps a lower and an upper bound of everything seen,
and both bounds are values that were seen. -/
theorem foldl_minMaxStep (axis : Vec3) (l : List Vec3) (m0 m1 : ℚ) :
    ((l.foldl (minMaxStep axis) (m0, m1)).1 ≤ m0 ∧
      ∀ p ∈ l, (l.foldl (minMaxStep axis) (m0, m1)).1 ≤ dot p axis) ∧
    (m1 ≤ (l.foldl (minMaxStep axis) (m0, m1)).2 ∧
      ∀ p ∈ l, dot p axis ≤ (l.foldl (minMaxStep axis) (m0, m1)).2) ∧
    ((l.foldl (minMaxStep axis) (m0, m1)).1 = m0 ∨
      ∃ p ∈ l, dot p axis = (l.foldl (minMaxStep axis) (m0, m1)).1) ∧
    ((l.foldl (minMaxStep axis) (m0, m1)).2 = m1 ∨
      ∃ p ∈ l, dot p axis = (l.foldl (minMaxStep axis) (m0, m1)).2) := by
  induction l generalizing m0 m1 with
  | nil => simp
  | cons q l ih =>
    simp only [List.foldl_cons, minMaxStep_eq, List.mem_cons, forall_eq_or_imp, exists_eq_or_imp]
    obtain ⟨⟨a1, a2⟩, ⟨b1, b2⟩, c, d⟩ := ih (min m0 (dot q axis)) (max m1 (dot q axis))
    refine ⟨⟨a1.trans (min_le_left _ _), a1.trans (min_le_right _ _), a2⟩,
      ⟨(le_max_left _ _).trans b1, (le_max_right _ _).trans b1, b2⟩, ?_, ?_⟩
    · rcases c with c | c
      · rcases min_choice m0 (dot q axis) with h | h
        · left; rw [c, h]
        · right; left; rw [c, h]
      · right; right; exact c
    · rcases d with d | d
      · rcases max_choice m1 (dot q axis) with h | h
        · left; rw [d, h]
        · right; left; rw [d, h]
      · right; right; exact d

/-- The result of `GetMinMax` bounds the projections of all eight points of
`GetPoints` and both bounds are projections of one of them. -/
theorem GetMinMax_spec (e : GameEntity M) (axis : Vec3) :
    (∀ c ∈ GetPoints e, (GetMinMax e axis).1 ≤ dot c axis ∧ dot c axis ≤ (GetMinMax e axis).2) ∧
    (∃ c ∈ GetPoints e, dot c axis = (GetMinMax e axis).1) ∧
    (∃ c ∈ GetPoints e, dot c axis = (GetMinMax e axis).2) := by
  obtain ⟨p0, rest, hp⟩ : ∃ p0 rest, GetPoints e = p0 :: rest := ⟨_, _, rfl⟩
  have hg : GetMinMax e axis = rest.foldl (minMaxStep axis) (dot p0 axis, dot p0 axis) := by
    simp [GetMinMax, hp]
  obtain ⟨⟨a1, a2⟩, ⟨b1, b2⟩, c, d⟩ := foldl_minMaxStep axis rest (dot p0 axis) (dot p0 axis)
  rw [hg, hp]
  simp only [List.mem_cons, forall_eq_or_imp, exists_eq_or_imp]
  refine ⟨⟨⟨a1, b1⟩, fun p hp => ⟨a2 p hp, b2 p hp⟩⟩, ?_, ?_⟩
  · rcases c with c | c
    · left; exact c.symm
    · right; exact c
  · rcases d with d | d
    · left; exact d.symm
    · right; exact d

theorem GetPoints_eq_map (e : GameEntity M) :
    GetPoints e = List.map (cornerOf e.box)
      [(false, false, false), (false, true, false), (false, true, true), (false, false, true),
       (true, true, true), (true, true, false), (true, false, false), (true, false, true)] := rfl

theorem boxCorners_eq_map (b : AABB) :
    boxCorners b = List.map (cornerOf b)
      [(false, false, false), (false, false, true), (false, true, false), (false, true, true),
       (true, false, false), (true, false, true), (true, true, false), (true, true, true)] := rfl

/-- C7: `GetPoints` lists each of the eight corner combinations exactly once,
and for every axis `GetMinMax` returns the least and the greatest projection
`dot(c, axis)` over these corners: every corner projects between the two
bounds, each bound is the projection of a corner, and `min ≤ max`. The
ordering `box.min ≤ box.max` of the claim is not needed. -/
theorem GetMinMax_extremes (e : GameEntity M) (axis : Vec3) :
    (GetPoints e).Perm (boxCorners e.box) ∧
    (∀ c ∈ boxCorners e.box,
      (GetMinMax e axis).1 ≤ dot c axis ∧ dot c axis ≤ (GetMinMax e axis).2) ∧
    (∃ c ∈ boxCorners e.box, dot c axis = (GetMinMax e axis).1) ∧
    (∃ c ∈ boxCorners e.box, dot c axis = (GetMinMax e axis).2) ∧
    (GetMinMax e axis).1 ≤ (GetMinMax e axis).2 := by
  have hperm : (GetPoints e).Perm (boxCorners e.box) := by
    rw [GetPoints_eq_map, boxCorners_eq_map]
    exact List.Perm.map _ (by decide)
  obtain ⟨h1, ⟨c1, hc1, h2⟩, ⟨c2, hc2, h3⟩⟩ := GetMinMax_spec e axis
  refine ⟨hperm, fun c hc => h1 c (hperm.mem_iff.mpr hc), ⟨c1, hperm.mem_iff.mp hc1, h2⟩,
    ⟨c2, hperm.mem_iff.mp hc2, h3⟩, ?_⟩
  exact (h1 c1 hc1).1.trans (h1 c1 hc1).2

/-- The three cross products of `GetNormals`, worked out on the corners of
`GetPoints`. -/
theorem GetNormals_eq (glm : GLM M) (e : GameEntity M) :
    GetNormals glm e =
      [glm.normalize ⟨(e.box.max.y - e.box.min.y) * (e.box.max.z - e.box.min.z), 0, 0⟩,
       glm.normalize ⟨0, (e.box.max.x - e.box.min.x) * (e.box.max.z - e.box.min.z), 0⟩,
       glm.normalize ⟨0, 0, -((e.box.max.x - e.box.min.x) * (e.box.max.y - e.box.min.y))⟩] := by
  have h : ∀ a b : Vec3, a = b → glm.normalize a = glm.normalize b := fun _ _ hab => by rw [hab]
  simp only [GetNormals, GetPoints, List.getD_cons_zero, List.getD_cons_succ]
  refine List.cons_eq_cons.mpr ⟨h _ _ ?_, List.cons_eq_cons.mpr ⟨h _ _ ?_,
    List.cons_eq_cons.mpr ⟨h _ _ ?_, rfl⟩⟩⟩ <;> ext <;>
    simp only [crossUV, Vec3.sub_x, Vec3.sub_y, Vec3.sub_z] <;> ring

/-- For a box of positive extent and a normalisation that rescales by a
positive factor, the normals are positive multiples of `(1,0,0)`, `(0,1,0)`
and `(0,0,-1)`. -/
theorem GetNormals_axes (glm : GLM M) (hn : PositiveNormalize glm) (e : GameEntity M)
    (he : Vec3.lt e.box.min e.box.max) :
    ∃ k1 k2 k3 : ℚ, 0 < k1 ∧ 0 < k2 ∧ 0 < k3 ∧
      GetNormals glm e = [⟨k1, 0, 0⟩, ⟨0, k2, 0⟩, ⟨0, 0, -k3⟩] := by
  obtain ⟨hx, hy, hz⟩ := he
  have dx : 0 < e.box.max.x - e.box.min.x := sub_pos.mpr hx
  have dy : 0 < e.box.max.y - e.box.min.y := sub_pos.mpr hy
  have dz : 0 < e.box.max.z - e.box.min.z := sub_pos.mpr hz
  have ne_of_x : ∀ {v : Vec3}, v.x ≠ 0 → v ≠ 0 := fun h hv => h (by rw [hv]; rfl)
  have ne_of_y : ∀ {v : Vec3}, v.y ≠ 0 → v ≠ 0 := fun h hv => h (by rw [hv]; rfl)
  have ne_of_z : ∀ {v : Vec3}, v.z ≠ 0 → v ≠ 0 := fun h hv => h (by rw [hv]; rfl)
  obtain ⟨c1, hc1, e1⟩ := hn ⟨(e.box.max.y - e.box.min.y) * (e.box.max.z - e.box.min.z), 0, 0⟩
    (ne_of_x (mul_pos dy dz).ne')
  obtain ⟨c2, hc2, e2⟩ := hn ⟨0, (e.box.max.x - e.box.min.x) * (e.box.max.z - e.box.min.z), 0⟩
    (ne_of_y (mul_pos dx dz).ne')
  obtain ⟨c3, hc3, e3⟩ := hn ⟨0, 0, -((e.box.max.x - e.box.min.x) * (e.box.max.y - e.box.min.y))⟩
    (ne_of_z (neg_ne_zero.mpr (mul_pos dx dy).ne'))
  refine ⟨(e.box.max.y - e.box.min.y) * (e.box.max.z - e.box.min.z) * c1,
    (e.box.max.x - e.box.min.x) * (e.box.max.z - e.box.min.z) * c2,
    (e.box.max.x - e.box.min.x) * (e.box.max.y - e.box.min.y) * c3,
    mul_pos (mul_pos dy dz) hc1, mul_pos (mul_pos dx dz) hc2, mul_pos (mul_pos dx dy) hc3, ?_⟩
  rw [GetNormals_eq, e1, e2, e3]
  refine List.cons_eq_cons.mpr ⟨?_, List.cons_eq_cons.mpr ⟨?_,
    List.cons_eq_cons.mpr ⟨?_, rfl⟩⟩⟩ <;> ext <;>
    simp only [Vec3.mul_x, Vec3.mul_y, Vec3.mul_z] <;> ring

/-- Every corner of `GetPoints` takes each coordinate from `min` or `max`. -/
theorem GetPoints_coords (e : GameEntity M) (c : Vec3) (hc : c ∈ GetPoints e) :
    (c.x = e.box.min.x ∨ c.x = e.box.max.x) ∧ (c.y = e.box.min.y ∨ c.y = e.box.max.y) ∧
    (c.z = e.box.min.z ∨ c.z = e.box.max.z) := by
  simp only [GetPoints, List.mem_cons, List.mem_singleton, List.not_mem_nil, or_false] at hc
  rcases hc with rfl | rfl | rfl | rfl | rfl | rfl | rfl | rfl <;> simp

theorem GetPoints_min_mem (e : GameEntity M) :
    (⟨e.box.min.x, e.box.min.y, e.box.min.z⟩ : Vec3) ∈ GetPoints e := by simp [GetPoints]

theorem GetPoints_max_mem (e : GameEntity M) :
    (⟨e.box.max.x, e.box.max.y, e.box.max.z⟩ : Vec3) ∈ GetPoints e := by simp [GetPoints]

/-- Projection of a box on a positive multiple of the X axis. -/
theorem GetMinMax_axis_x (e : GameEntity M) (k : ℚ) (hk : 0 < k)
    (h : e.box.min.x ≤ e.box.max.x) :
    GetMinMax e ⟨k, 0, 0⟩ = (e.box.min.x * k, e.box.max.x * k) := by
  obtain ⟨h1, ⟨c1, hc1, h2⟩, ⟨c2, hc2, h3⟩⟩ := GetMinMax_spec e ⟨k, 0, 0⟩
  have hmul : e.box.min.x * k ≤ e.box.max.x * k := mul_le_mul_of_nonneg_right h hk.le
  have lo := (h1 _ (GetPoints_min_mem e)).1
  have hi := (h1 _ (GetPoints_max_mem e)).2
  simp only [dot, mul_zero, add_zero] at lo hi h2 h3
  ext
  · rcases (GetPoints_coords e c1 hc1).1 with hx | hx <;> rw [hx] at h2 <;> simp only <;> linarith
  · rcases (GetPoints_coords e c2 hc2).1 with hx | hx <;> rw [hx] at h3 <;> simp only <;> linarith

/-- Projection of a box on a positive multiple of the Y axis. -/
theorem GetMinMax_axis_y (e : GameEntity M) (k : ℚ) (hk : 0 < k)
    (h : e.box.min.y ≤ e.box.max.y) :
    GetMinMax e ⟨0, k, 0⟩ = (e.box.min.y * k, e.box.max.y * k) := by
  obtain ⟨h1, ⟨c1, hc1, h2⟩, ⟨c2, hc2, h3⟩⟩ := GetMinMax_spec e ⟨0, k, 0⟩
  have hmul : e.box.min.y * k ≤ e.box.max.y * k := mul_le_mul_of_nonneg_right h hk.le
  have lo := (h1 _ (GetPoints_min_mem e)).1
  have hi := (h1 _ (GetPoints_max_mem e)).2
  simp only [dot, mul_zero, add_zero, zero_add] at lo hi h2 h3
  ext
  · rcases (GetPoints_coords e c1 hc1).2.1 with hx | hx <;> rw [hx] at h2 <;> simp only <;> linarith
  · rcases (GetPoints_coords e c2 hc2).2.1 with hx | hx <;> rw [hx] at h3 <;> simp only <;> linarith

/-- Projection of a box on a positive multiple of `(0,0,-1)`: the bounds swap. -/
theorem GetMinMax_axis_neg_z (e : GameEntity M) (k : ℚ) (hk : 0 < k)
    (h : e.box.min.z ≤ e.box.max.z) :
    GetMinMax e ⟨0, 0, -k⟩ = (e.box.max.z * -k, e.box.min.z * -k) := by
  obtain ⟨h1, ⟨c1, hc1, h2⟩, ⟨c2, hc2, h3⟩⟩ := GetMinMax_spec e ⟨0, 0, -k⟩
  have hmul : e.box.min.z * k ≤ e.box.max.z * k := mul_le_mul_of_nonneg_right h hk.le
  have lo := (h1 _ (GetPoints_max_mem e)).1
  have hi := (h1 _ (GetPoints_min_mem e)).2
  simp only [dot, mul_zero, add_zero, zero_add] at lo hi h2 h3
  ext
  · rcases (GetPoints_coords e c1 hc1).2.2 with hx | hx <;> rw [hx] at h2 <;> simp only <;> linarith
  · rcases (GetPoints_coords e c2 hc2).2.2 with hx | hx <;> rw [hx] at h3 <;> simp only <;> linarith

/-- C8: for two bodies whose boxes have positive extent on each axis, the
separating-axis test over `GetNormals(A)` followed by `GetNormals(B)`, with
the intervals of `GetMinMax`, reports overlap exactly when `A.min ≤ B.max` and
`B.min ≤ A.max` on all three coordinates. `glm::normalize` is only asked to
rescale by a positive factor. -/
theorem Overlap_exact (glm : GLM M) (hn : PositiveNormalize glm) (A B : GameEntity M)
    (hA : Vec3.lt A.box.min A.box.max) (hB : Vec3.lt B.box.min B.box.max) :
    Overlap glm A B = true ↔ A.box.Intersects B.box := by
  obtain ⟨a1, a2, a3, ha1, ha2, ha3, hNA⟩ := GetNormals_axes glm hn A hA
  obtain ⟨b1, b2, b3, hb1, hb2, hb3, hNB⟩ := GetNormals_axes glm hn B hB
  obtain ⟨hAx, hAy, hAz⟩ := hA
  obtain ⟨hBx, hBy, hBz⟩ := hB
  unfold Overlap
  rw [hNA, hNB]
  simp only [List.cons_append, List.nil_append, List.all_cons, List.all_nil, Bool.and_true,
    Bool.and_eq_true, Bool.not_eq_true', Bool.or_eq_false_iff, decide_eq_false_iff_not, not_lt,
    GetMinMax_axis_x A a1 ha1 hAx.le, GetMinMax_axis_x B a1 ha1 hBx.le,
    GetMinMax_axis_y A a2 ha2 hAy.le, GetMinMax_axis_y B a2 ha2 hBy.le,
    GetMinMax_axis_neg_z A a3 ha3 hAz.le, GetMinMax_axis_neg_z B a3 ha3 hBz.le,
    GetMinMax_axis_x A b1 hb1 hAx.le, GetMinMax_axis_x B b1 hb1 hBx.le,
    GetMinMax_axis_y A b2 hb2 hAy.le, GetMinMax_axis_y B b2 hb2 hBy.le,
    GetMinMax_axis_neg_z A b3 hb3 hAz.le, GetMinMax_axis_neg_z B b3 hb3 hBz.le,
    mul_le_mul_right ha1, mul_le_mul_right ha2, mul_le_mul_right hb1, mul_le_mul_right hb2,
    mul_le_mul_right_of_neg (neg_lt_zero.mpr ha3), mul_le_mul_right_of_neg (neg_lt_zero.mpr hb3),
    AABB.Intersects, Vec3.le]
  tauto


theorem axisGLM_positive : PositiveNormalize axisGLM := by
  intro v hv
  refine ⟨(taxicab v)⁻¹, inv_pos.mpr ?_, rfl⟩
  have h0 : 0 ≤ taxicab v := by unfold taxicab; positivity
  rcases h0.lt_or_eq with h | h
  · exact h
  · exfalso
    apply hv
    unfold taxicab at h
    have hx := abs_nonneg v.x
    have hy := abs_nonneg v.y
    have hz := abs_nonneg v.z
    ext
    · exact abs_eq_zero.mp (by linarith)
    · exact abs_eq_zero.mp (by linarith)
    · exact abs_eq_zero.mp (by linarith)

theorem unitCubeAt_lt (c : Vec3) : Vec3.lt (unitCubeAt c).box.min (unitCubeAt c).box.max := by
  simp only [unitCubeAt, Vec3.lt, Vec3.sub_x, Vec3.sub_y, Vec3.sub_z, Vec3.add_x, Vec3.add_y,
    Vec3.add_z]
  refine ⟨?_, ?_, ?_⟩ <;> linarith

/-- C8 on the two scenarios: unit cubes at `(0,0,0)` and `(0.4,0,0)` overlap;
at `(0,0,0)` and `(1.1,0,0)` they do not, the X intervals `[-1/2, 1/2]` and
`[3/5, 8/5]` being disjoint. -/
theorem Overlap_exact_witness :
    PositiveNormalize axisGLM ∧
    Vec3.lt (unitCubeAt 0).box.min (unitCubeAt 0).box.max ∧
    Vec3.lt (unitCubeAt ⟨4 / 10, 0, 0⟩).box.min (unitCubeAt ⟨4 / 10, 0, 0⟩).box.max ∧
    Vec3.lt (unitCubeAt ⟨11 / 10, 0, 0⟩).box.min (unitCubeAt ⟨11 / 10, 0, 0⟩).box.max ∧
    Overlap axisGLM (unitCubeAt 0) (unitCubeAt ⟨4 / 10, 0, 0⟩) = true ∧
    Overlap axisGLM (unitCubeAt 0) (unitCubeAt ⟨11 / 10, 0, 0⟩) = false ∧
    GetMinMax (unitCubeAt 0) ⟨1, 0, 0⟩ = (-(1 / 2), 1 / 2) ∧
    GetMinMax (unitCubeAt ⟨11 / 10, 0, 0⟩) ⟨1, 0, 0⟩ = (3 / 5, 8 / 5) := by
  refine ⟨axisGLM_positive, unitCubeAt_lt _, unitCubeAt_lt _, unitCubeAt_lt _, ?_, ?_, ?_, ?_⟩
  · apply (Overlap_exact axisGLM axisGLM_positive _ _ (unitCubeAt_lt _) (unitCubeAt_lt _)).mpr
    norm_num [AABB.Intersects, Vec3.le, unitCubeAt]
  · apply Bool.eq_false_iff.mpr
    intro h
    have h2 := (Overlap_exact axisGLM axisGLM_positive _ _ (unitCubeAt_lt _)
      (unitCubeAt_lt _)).mp h
    norm_num [AABB.Intersects, Vec3.le, unitCubeAt] at h2
  · rw [GetMinMax_axis_x _ 1 one_pos (unitCubeAt_lt _).1.le]
    norm_num [unitCubeAt]
  · rw [GetMinMax_axis_x _ 1 one_pos (unitCubeAt_lt _).1.le]
    norm_num [unitCubeAt]

/-! ## The force pass -/

theorem accFor_congr {n : Nat} (glm : GLM M) (cs cubes : Fin n → GameEntity M)
    (h : SameReads cs cubes) (i : Fin n) : accFor glm cs i = accFor glm cubes i := by
  unfold accFor
  congr 1
  funext acc j
  simp only [speed, (h j).1, (h i).1, (h i).2.1, (h j).2.2]

theorem foldl_forceStep {n : Nat} (glm : GLM M) (cubes : Fin n → GameEntity M)
    (l : List (Fin n)) (cs : Fin n → GameEntity M) (h : SameReads cs cubes) :
    SameReads (l.foldl (fun cs i => Function.update cs i
        (SetAcceleration (accFor glm cs i) (cs i))) cs) cubes ∧
    ∀ i, ((l.foldl (fun cs i => Function.update cs i
        (SetAcceleration (accFor glm cs i) (cs i))) cs) i).acceleration =
      if i ∈ l then accFor glm cubes i else (cs i).acceleration := by
  induction l generalizing cs with
  | nil => exact ⟨h, fun i => by simp⟩
  | cons a l ih =>
    have h1 : SameReads (Function.update cs a (SetAcceleration (accFor glm cs a) (cs a))) cubes := by
      intro k
      by_cases hk : k = a
      · subst hk; simpa [SetAcceleration] using h k
      · simpa [Function.update_noteq hk] using h k
    obtain ⟨r1, r2⟩ := ih _ h1
    refine ⟨r1, fun i => ?_⟩
    rw [List.foldl_cons, r2 i]
    by_cases hi : i ∈ l
    · simp [hi]
    · by_cases hia : i = a
      · subst hia; simp [hi, SetAcceleration, accFor_congr glm cs cubes h]
      · simp [hi, hia, Function.update_noteq hia]

/-- A guarded accumulation loop adds up the guarded terms. -/
theorem foldl_guarded_add {ι : Type} (c : ι → Bool) (g : ι → Vec3) (l : List ι) (init : Vec3) :
    l.foldl (fun acc j => if c j then acc + g j else acc) init =
      init + (l.map (fun j => if c j then g j else 0)).sum := by
  induction l generalizing init with
  | nil => simp
  | cons a l ih =>
    rw [List.foldl_cons, ih, List.map_cons, List.sum_cons]
    by_cases h : c a
    · simp [h, add_assoc]
    · simp [h]

/-- The inner loop of the force pass as a sum over the other, non-orbital
bodies. -/
theorem accFor_eq_sum {n : Nat} (glm : GLM M) (cubes : Fin n → GameEntity M) (i : Fin n) :
    accFor glm cubes i =
      ∑ j ∈ Finset.univ.filter (fun j => j ≠ i ∧ (cubes j).orbital = false),
        glm.normalize ((cubes j).position - (cubes i).position) * speed glm (cubes i) := by
  have h := foldl_guarded_add (fun j => decide (i ≠ j) && !(cubes j).orbital)
    (fun j => glm.normalize ((cubes j).position - (cubes i).position) * speed glm (cubes i))
    (List.finRange n) 0
  have h2 : accFor glm cubes i = (List.finRange n).foldl
      (fun acc j => if (decide (i ≠ j) && !(cubes j).orbital) = true then
        acc + glm.normalize ((cubes j).position - (cubes i).position) * speed glm (cubes i)
        else acc) 0 := by
    unfold accFor
    congr 1
    funext acc j
    by_cases hij : i = j <;> cases ho : (cubes j).orbital <;> simp [hij, ho]
  rw [h2, h, zero_add, Finset.sum_filter, Fin.sum_univ_def]
  congr 1
  apply List.map_congr_left
  intro j _
  by_cases hij : i = j <;> cases ho : (cubes j).orbital <;> simp [hij, ho, eq_comm]

/-- C5: after the force pass the acceleration of body `i` is the sum, over the
bodies `j ≠ i` that are not orbital, of `normalize(pos_j - pos_i) * speed_i`,
where `speed_i` is the `vel` of the loop; the accelerations held before the
pass play no part. -/
theorem forcePass_acceleration {n : Nat} (glm : GLM M) (cubes : Fin n → GameEntity M)
    (i : Fin n) :
    (forcePass glm cubes i).acceleration =
      ∑ j ∈ Finset.univ.filter (fun j => j ≠ i ∧ (cubes j).orbital = false),
        glm.normalize ((cubes j).position - (cubes i).position) * speed glm (cubes i) ∧
    ∀ accs : Fin n → Vec3,
      (forcePass glm (fun k => SetAcceleration (accs k) (cubes k)) i).acceleration =
        (forcePass glm cubes i).acceleration := by
  have key : ∀ cs : Fin n → GameEntity M, (forcePass glm cs i).acceleration = accFor glm cs i := by
    intro cs
    have h := (foldl_forceStep glm cs (List.finRange n) cs (fun _ => ⟨rfl, rfl, rfl⟩)).2 i
    simpa [forcePass, List.mem_finRange] using h
  refine ⟨by rw [key, accFor_eq_sum], fun accs => ?_⟩
  rw [key, key]
  exact accFor_congr glm _ cubes (fun _ => ⟨rfl, rfl, rfl⟩) i

/-! ## Frame of `Reset` and translation of `CalculateBox` -/

/-- C16: `Reset()` writes `position`, `velocity` and `enabled` only: the
acceleration, the gravity and orbital flags, mass, scale, eulerAngles, the
box and the start snapshot are as before, and so is every other member. -/
theorem Reset_frame (e : GameEntity M) :
    Reset e = { e with position := e.startPos, velocity := e.startVel, enabled := true } ∧
    (Reset e).acceleration = e.acceleration ∧
    (Reset e).gravity = e.gravity ∧
    (Reset e).orbital = e.orbital ∧
    (Reset e).mass = e.mass ∧
    (Reset e).scale = e.scale ∧
    (Reset e).eulerAngles = e.eulerAngles ∧
    (Reset e).box = e.box ∧
    (Reset e).startPos = e.startPos ∧
    (Reset e).startVel = e.startVel ∧
    (Reset e).worldMatrix = e.worldMatrix ∧
    (Reset e).mesh = e.mesh ∧
    (Reset e).timer = e.timer ∧
    (Reset e).activated = e.activated :=
  ⟨rfl, rfl, rfl, rfl, rfl, rfl, rfl, rfl, rfl, rfl, rfl, rfl, rfl, rfl⟩

theorem boxStep_shift (p d : Vec3) (v : Nat → ℚ) (b : AABB) (i : Nat) :
    boxStep (p + d) v (b.shift d) i = (boxStep p v b i).shift d := by
  unfold boxStep AABB.shift
  simp only [Vec3.add_x, Vec3.add_y, Vec3.add_z, gt_iff_lt]
  have hx : p.x + d.x + v i = p.x + v i + d.x := by ring
  have hy : p.y + d.y + v (i + 1) = p.y + v (i + 1) + d.y := by ring
  have hz : p.z + d.z + v (i + 2) = p.z + v (i + 2) + d.z := by ring
  rw [hx, hy, hz]
  simp only [add_lt_add_iff_right]
  congr 1 <;> ext <;> simp only [Vec3.add_x, Vec3.add_y, Vec3.add_z] <;> split_ifs <;> rfl

theorem boxLoop_shift (p d : Vec3) (v : Nat → ℚ) (n : Nat) :
    boxLoop (p + d) v n = (boxLoop p v n).shift d := by
  induction n with
  | zero => rfl
  | succ n ih => rw [boxLoop_succ, boxLoop_succ, ih, boxStep_shift]

/-- C18: the box left by `CalculateBox` is the loop result on the position and
the mesh data alone, so another scale or other eulerAngles give the same box;
and moving the body by `d` moves `box.min` and `box.max` by `d`. -/
theorem CalculateBox_translation (e : GameEntity M) :
    (CalculateBox e).box = boxLoop e.position e.mesh.vertices e.mesh.vertCount ∧
    (∀ s r : Vec3, (CalculateBox { e with scale := s, eulerAngles := r }).box = (CalculateBox e).box) ∧
    (∀ d : Vec3, (CalculateBox { e with position := e.position + d }).box =
      ⟨(CalculateBox e).box.min + d, (CalculateBox e).box.max + d⟩) := by
  refine ⟨rfl, fun _ _ => rfl, fun d => ?_⟩
  rw [CalculateBox_box, CalculateBox_box]
  exact boxLoop_shift e.position d e.mesh.vertices e.mesh.vertCount

/-! ## `GetNormals` on degenerate and on proper boxes -/

theorem GetNormals_eq_map (glm : GLM M) (e : GameEntity M) :
    GetNormals glm e = (crossProducts e).map glm.normalize := rfl

theorem crossProducts_eq (e : GameEntity M) :
    crossProducts e =
      [⟨(e.box.max.y - e.box.min.y) * (e.box.max.z - e.box.min.z), 0, 0⟩,
       ⟨0, (e.box.max.x - e.box.min.x) * (e.box.max.z - e.box.min.z), 0⟩,
       ⟨0, 0, -((e.box.max.x - e.box.min.x) * (e.box.max.y - e.box.min.y))⟩] := by
  simp only [crossProducts, GetPoints, List.getD_cons_zero, List.getD_cons_succ]
  refine List.cons_eq_cons.mpr ⟨?_, List.cons_eq_cons.mpr ⟨?_,
    List.cons_eq_cons.mpr ⟨?_, rfl⟩⟩⟩ <;> ext <;>
    simp only [crossUV, Vec3.sub_x, Vec3.sub_y, Vec3.sub_z] <;> ring

/-- With positive extent on each axis and a normalisation that is exact on
axis-parallel vectors, the normals are `(1,0,0)`, `(0,1,0)`, `(0,0,-1)`. -/
theorem GetNormals_of_positive_extent (glm : GLM M) (hn : ExactOnAxes glm) (e : GameEntity M)
    (he : Vec3.lt e.box.min e.box.max) :
    GetNormals glm e = [⟨1, 0, 0⟩, ⟨0, 1, 0⟩, ⟨0, 0, -1⟩] := by
  obtain ⟨hx, hy, hz⟩ := he
  have dx : 0 < e.box.max.x - e.box.min.x := sub_pos.mpr hx
  have dy : 0 < e.box.max.y - e.box.min.y := sub_pos.mpr hy
  have dz : 0 < e.box.max.z - e.box.min.z := sub_pos.mpr hz
  have h1 := mul_pos dy dz
  have h2 := mul_pos dx dz
  have h3 := mul_pos dx dy
  rw [GetNormals_eq, (hn _ (ne_of_gt h1)).1, (hn _ (ne_of_gt h2)).2.1,
    (hn _ (neg_ne_zero.mpr (ne_of_gt h3))).2.2]
  rw [abs_of_pos h1, abs_of_pos h2, abs_neg, abs_of_pos h3, div_self (ne_of_gt h1),
    div_self (ne_of_gt h2), neg_div, div_self (ne_of_gt h3)]

theorem axisGLM_exact : ExactOnAxes axisGLM := by
  intro a _
  refine ⟨?_, ?_, ?_⟩ <;> ext <;> simp [axisGLM, taxicab, div_eq_mul_inv]

theorem slabBody_lt : Vec3.lt slabBody.box.min slabBody.box.max := by
  simp only [slabBody, Vec3.lt]
  norm_num

/-- C17: for boxes with strictly positive extent on each axis, `GetNormals`
returns `(1,0,0)`, `(0,1,0)`, `(0,0,-1)` in that order, whatever the position
and size; two such boxes have the same normal list, and the six axes of the
separating-axis test are these three. `glm::normalize` is taken exact on
axis-parallel vectors. -/
theorem GetNormals_coordinate_axes (glm : GLM M) (hn : ExactOnAxes glm) (A B : GameEntity M)
    (hA : Vec3.lt A.box.min A.box.max) (hB : Vec3.lt B.box.min B.box.max) :
    GetNormals glm A = [⟨1, 0, 0⟩, ⟨0, 1, 0⟩, ⟨0, 0, -1⟩] ∧
    GetNormals glm A = GetNormals glm B ∧
    (GetNormals glm A ++ GetNormals glm B).dedup = [⟨1, 0, 0⟩, ⟨0, 1, 0⟩, ⟨0, 0, -1⟩] := by
  have a := GetNormals_of_positive_extent glm hn A hA
  have b := GetNormals_of_positive_extent glm hn B hB
  refine ⟨a, a.trans b.symm, ?_⟩
  rw [a, b]
  decide

/-- C17 on the unit cube at the origin and the box `[1,3] × [2,7] × [3,4]`. -/
theorem GetNormals_coordinate_axes_witness :
    ExactOnAxes axisGLM ∧
    Vec3.lt (unitCubeAt 0).box.min (unitCubeAt 0).box.max ∧
    Vec3.lt slabBody.box.min slabBody.box.max ∧
    GetNormals axisGLM (unitCubeAt 0) = [⟨1, 0, 0⟩, ⟨0, 1, 0⟩, ⟨0, 0, -1⟩] ∧
    GetNormals axisGLM (unitCubeAt 0) = GetNormals axisGLM slabBody :=
  have h := GetNormals_coordinate_axes axisGLM axisGLM_exact (unitCubeAt 0) slabBody
    (unitCubeAt_lt 0) slabBody_lt
  ⟨axisGLM_exact, unitCubeAt_lt 0, slabBody_lt, h.1, h.2.1⟩

/-- The cross products of `GetNormals` are all nonzero exactly when no extent
of the box is zero. -/
theorem crossProducts_ne_zero_iff (e : GameEntity M) :
    (∀ v ∈ crossProducts e, v ≠ 0) ↔
      e.box.max.x - e.box.min.x ≠ 0 ∧ e.box.max.y - e.box.min.y ≠ 0 ∧
        e.box.max.z - e.box.min.z ≠ 0 := by
  have hx : ∀ a : ℚ, (⟨a, 0, 0⟩ : Vec3) ≠ 0 ↔ a ≠ 0 := fun a =>
    ⟨fun h ha => h (by rw [ha]; rfl), fun h hv => h (congrArg Vec3.x hv)⟩
  have hy : ∀ a : ℚ, (⟨0, a, 0⟩ : Vec3) ≠ 0 ↔ a ≠ 0 := fun a =>
    ⟨fun h ha => h (by rw [ha]; rfl), fun h hv => h (congrArg Vec3.y hv)⟩
  have hz : ∀ a : ℚ, (⟨0, 0, a⟩ : Vec3) ≠ 0 ↔ a ≠ 0 := fun a =>
    ⟨fun h ha => h (by rw [ha]; rfl), fun h hv => h (congrArg Vec3.z hv)⟩
  rw [crossProducts_eq]
  simp only [List.mem_cons, List.mem_singleton, List.not_mem_nil, or_false, forall_eq_or_imp,
    forall_eq, hx, hy, hz, neg_ne_zero, mul_ne_zero_iff]
  tauto

/-- C11, refuted at the point box: for a body with a zero-vertex mesh, the box
left by `CalculateBox` makes all three cross products of `GetNormals` the zero
vector, and each is handed to `glm::normalize`. -/
theorem GetNormals_normalises_zero_on_point_box :
    (CalculateBox emptyMeshBody).mesh.vertCount = 0 ∧
    (CalculateBox emptyMeshBody).box = ⟨⟨1, 2, 3⟩, ⟨1, 2, 3⟩⟩ ∧
    crossProducts (CalculateBox emptyMeshBody) = [0, 0, 0] ∧
    ¬ (∀ v ∈ crossProducts (CalculateBox emptyMeshBody), v ≠ 0) := by
  have hb : (CalculateBox emptyMeshBody).box = ⟨⟨1, 2, 3⟩, ⟨1, 2, 3⟩⟩ := rfl
  have hc : crossProducts (CalculateBox emptyMeshBody) = [0, 0, 0] := by
    rw [crossProducts_eq, hb]
    refine List.cons_eq_cons.mpr ⟨?_, List.cons_eq_cons.mpr ⟨?_,
      List.cons_eq_cons.mpr ⟨?_, rfl⟩⟩⟩ <;> ext <;> simp
  refine ⟨rfl, hb, hc, ?_⟩
  rw [hc]
  intro h
  exact h 0 (List.mem_cons_self _ _) rfl

/-- C11, amended: on the box left by `CalculateBox`, no zero cross product is
normalised exactly when the box has strictly positive extent on each axis,
and then `GetNormals` returns three vectors of length 1. `glm::normalize` is
taken exact on axis-parallel vectors. -/
theorem GetNormals_unit_iff_positive_extent (glm : GLM M) (hn : ExactOnAxes glm)
    (e : GameEntity M) :
    ((∀ v ∈ crossProducts (CalculateBox e), v ≠ 0) ↔
      Vec3.lt (CalculateBox e).box.min (CalculateBox e).box.max) ∧
    (Vec3.lt (CalculateBox e).box.min (CalculateBox e).box.max →
      (GetNormals glm (CalculateBox e)).length = 3 ∧
      ∀ n ∈ GetNormals glm (CalculateBox e), dot n n = 1) := by
  constructor
  · rw [crossProducts_ne_zero_iff]
    obtain ⟨⟨h1, h2, h3⟩, h4, h5, h6⟩ :=
      boxLoop_contains e.position e.mesh.vertices e.mesh.vertCount
    rw [← CalculateBox_box] at h1 h2 h3 h4 h5 h6
    have hx := h1.trans h4
    have hy := h2.trans h5
    have hz := h3.trans h6
    simp only [Vec3.lt, sub_ne_zero]
    constructor
    · rintro ⟨a, b, c⟩
      exact ⟨lt_of_le_of_ne hx (Ne.symm a), lt_of_le_of_ne hy (Ne.symm b),
        lt_of_le_of_ne hz (Ne.symm c)⟩
    · rintro ⟨a, b, c⟩
      exact ⟨ne_of_gt a, ne_of_gt b, ne_of_gt c⟩
  · intro h
    rw [GetNormals_of_positive_extent glm hn _ h]
    refine ⟨rfl, ?_⟩
    intro n hn2
    simp only [List.mem_cons, List.mem_singleton, List.not_mem_nil, or_false] at hn2
    rcases hn2 with rfl | rfl | rfl <;> simp [dot]

theorem twoCornerBody_box :
    (CalculateBox twoCornerBody).box = ⟨⟨-(1 / 2), -(1 / 2), -(1 / 2)⟩, ⟨0, 0, 1 / 2⟩⟩ := by
  norm_num [CalculateBox_box, boxLoop, boxStep, twoCornerBody, GameEntity.ctor, Mesh.ofList,
    List.range_succ]

/-- C11, amended, on the body with the two corner triplets: its box is
`[-1/2,0] × [-1/2,0] × [-1/2,1/2]`, no cross product is zero and the three
normals have length 1. -/
theorem GetNormals_unit_iff_positive_extent_witness :
    ExactOnAxes axisGLM ∧
    Vec3.lt (CalculateBox twoCornerBody).box.min (CalculateBox twoCornerBody).box.max ∧
    (∀ v ∈ crossProducts (CalculateBox twoCornerBody), v ≠ 0) ∧
    (GetNormals axisGLM (CalculateBox twoCornerBody)).length = 3 ∧
    ∀ n ∈ GetNormals axisGLM (CalculateBox twoCornerBody), dot n n = 1 := by
  have h := GetNormals_unit_iff_positive_extent axisGLM axisGLM_exact twoCornerBody
  have hlt : Vec3.lt (CalculateBox twoCornerBody).box.min (CalculateBox twoCornerBody).box.max := by
    rw [twoCornerBody_box]
    simp only [Vec3.lt]
    norm_num
  exact ⟨axisGLM_exact, hlt, h.1.mpr hlt, h.2 hlt⟩

/-! ## The force pass: speed guard, disabled bodies, coinciding positions -/

/-- C13, refuted at speed `1/10`: for a body moving at `(1/10, 0, 0)` the
factor of the force pass is `1/10`, not `max(1/10, 2/10) = 2/10`. -/
theorem speed_below_floor :
    axisGLM.length slowBody.velocity = 1 / 10 ∧
    speed axisGLM slowBody = 1 / 10 ∧
    speed axisGLM slowBody ≠ max (axisGLM.length slowBody.velocity) (2 / 10) := by
  have hl : axisGLM.length slowBody.velocity = 1 / 10 := by
    norm_num [axisGLM, taxicab, slowBody, GameEntity.ctor]
  have hs : speed axisGLM slowBody = 1 / 10 := by
    unfold speed
    rw [hl]
    norm_num
  refine ⟨hl, hs, ?_⟩
  rw [hs, hl]
  norm_num

/-- C13, amended: the factor is `0.2` when the length of the velocity is
exactly `0` and the length itself otherwise; it agrees with `max(|v|, 0.2)`
from `0.2` upwards, stays below `0.2` for `0 < |v| < 0.2`, and is positive
for every nonnegative length. -/
theorem speed_zero_guard (glm : GLM M) (e : GameEntity M) :
    (glm.length e.velocity = 0 → speed glm e = 2 / 10) ∧
    (glm.length e.velocity ≠ 0 → speed glm e = glm.length e.velocity) ∧
    (2 / 10 ≤ glm.length e.velocity → speed glm e = max (glm.length e.velocity) (2 / 10)) ∧
    (0 < glm.length e.velocity → glm.length e.velocity < 2 / 10 →
      speed glm e = glm.length e.velocity ∧ speed glm e < 2 / 10) ∧
    (0 ≤ glm.length e.velocity → 0 < speed glm e) := by
  have h0 : glm.length e.velocity = 0 → speed glm e = 2 / 10 := fun h => by
    simp [speed, h]
  have h1 : glm.length e.velocity ≠ 0 → speed glm e = glm.length e.velocity := fun h => by
    simp [speed, h]
  refine ⟨h0, h1, ?_, ?_, ?_⟩
  · intro h
    have hne : glm.length e.velocity ≠ 0 := by
      intro hz; rw [hz] at h; norm_num at h
    rw [h1 hne, max_eq_left h]
  · intro hpos hlt
    rw [h1 (ne_of_gt hpos)]
    exact ⟨rfl, hlt⟩
  · intro h
    rcases h.lt_or_eq with hp | hz
    · rw [h1 (ne_of_gt hp)]; exact hp
    · rw [h0 hz.symm]; norm_num

/-- C13, amended, at a body of speed `1/10` and at a body at rest. -/
theorem speed_zero_guard_witness :
    axisGLM.length slowBody.velocity ≠ 0 ∧
    0 < axisGLM.length slowBody.velocity ∧ axisGLM.length slowBody.velocity < 2 / 10 ∧
    speed axisGLM slowBody = axisGLM.length slowBody.velocity ∧
    speed axisGLM slowBody < 2 / 10 ∧
    axisGLM.length emptyMeshBody.velocity = 0 ∧
    speed axisGLM emptyMeshBody = 2 / 10 := by
  have hl : axisGLM.length slowBody.velocity = 1 / 10 := by
    norm_num [axisGLM, taxicab, slowBody, GameEntity.ctor]
  have hz : axisGLM.length emptyMeshBody.velocity = 0 := by
    norm_num [axisGLM, taxicab, emptyMeshBody, GameEntity.ctor]
  have hne : axisGLM.length slowBody.velocity ≠ 0 := by rw [hl]; norm_num
  have hpos : 0 < axisGLM.length slowBody.velocity := by rw [hl]; norm_num
  have hlt : axisGLM.length slowBody.velocity < 2 / 10 := by rw [hl]; norm_num
  have h := (speed_zero_guard axisGLM slowBody).2.2.2.1 hpos hlt
  exact ⟨hne, hpos, hlt, h.1, h.2, hz, (speed_zero_guard axisGLM emptyMeshBody).1 hz⟩

/-- After the force pass, body `i` holds the value of the inner loop taken on
the bodies as they were before the pass. -/
theorem forcePass_eq_accFor {n : Nat} (glm : GLM M) (cubes : Fin n → GameEntity M) (i : Fin n) :
    (forcePass glm cubes i).acceleration = accFor glm cubes i := by
  have h := (foldl_forceStep glm cubes (List.finRange n) cubes (fun _ => ⟨rfl, rfl, rfl⟩)).2 i
  simpa [forcePass, List.mem_finRange] using h

/-- The force pass never reads `enabled`: other flags give the same
accelerations. -/
theorem forcePass_ignores_enabled {n : Nat} (glm : GLM M) (cubes : Fin n → GameEntity M)
    (flags : Fin n → Bool) (i : Fin n) :
    (forcePass glm (fun k => { cubes k with enabled := flags k }) i).acceleration =
      (forcePass glm cubes i).acceleration := by
  rw [forcePass_eq_accFor, forcePass_eq_accFor]
  exact accFor_congr glm _ cubes (fun _ => ⟨rfl, rfl, rfl⟩) i

/-- C12, at the failing input: body 1 is disabled and non-orbital, yet the
pass gives body 0 the acceleration `(0.2, 0, 0)` towards it, and it
overwrites the acceleration `(7, 8, 9)` of the disabled body 1 with zero. -/
theorem forcePass_counts_disabled_body :
    (ghostPair 1).enabled = false ∧ (ghostPair 1).orbital = false ∧
    (ghostPair 0).enabled = true ∧
    (forcePass axisGLM ghostPair 0).acceleration = ⟨2 / 10, 0, 0⟩ ∧
    (ghostPair 1).acceleration = ⟨7, 8, 9⟩ ∧
    (forcePass axisGLM ghostPair 1).acceleration = 0 := by
  refine ⟨rfl, rfl, rfl, ?_, rfl, ?_⟩
  · rw [forcePass_eq_accFor, accFor_eq_sum, Finset.sum_filter, Fin.sum_univ_two]
    ext <;> norm_num [ghostPair, GameEntity.ctor, speed, axisGLM, taxicab]
  · rw [forcePass_eq_accFor, accFor_eq_sum, Finset.sum_filter, Fin.sum_univ_two]
    ext <;> norm_num [ghostPair, GameEntity.ctor, speed, axisGLM, taxicab]

/-- A guarded loop that appends one item per admitted index collects the
items of the admitted indices, in order. -/
theorem foldl_guarded_append {ι : Type} (c : ι → Bool) (g : ι → Vec3) (l : List ι)
    (init : List Vec3) :
    l.foldl (fun args j => if c j then args ++ [g j] else args) init =
      init ++ (l.filter c).map g := by
  induction l generalizing init with
  | nil => simp
  | cons a l ih =>
    rw [List.foldl_cons, ih]
    by_cases h : c a
    · simp [h]
    · simp [h]

/-- The recorded `normalize` arguments of body `i`: one per body `j ≠ i` that
is not orbital. -/
theorem dirArgs_eq {n : Nat} (cubes : Fin n → GameEntity M) (i : Fin n) :
    dirArgs cubes i =
      ((List.finRange n).filter (fun j => decide (i ≠ j) && !(cubes j).orbital)).map
        (fun j => (cubes j).position - (cubes i).position) := by
  have h := foldl_guarded_append (fun j => decide (i ≠ j) && !(cubes j).orbital)
    (fun j => (cubes j).position - (cubes i).position) (List.finRange n) []
  rw [List.nil_append] at h
  rw [← h]
  unfold dirArgs
  congr 1
  funext args j
  by_cases hij : i = j <;> cases ho : (cubes j).orbital <;> simp [hij, ho]

/-- The inner loop adds one term per recorded `normalize` argument. -/
theorem accFor_eq_sum_dirArgs {n : Nat} (glm : GLM M) (cubes : Fin n → GameEntity M)
    (i : Fin n) :
    accFor glm cubes i =
      ((dirArgs cubes i).map (fun d => glm.normalize d * speed glm (cubes i))).sum := by
  have key : ∀ (l : List (Fin n)) (init : Vec3),
      l.foldl
        (fun acc j =>
          if i ≠ j then
            if !(cubes j).orbital then
              let dir := glm.normalize ((cubes j).position - (cubes i).position)
              let vel := speed glm (cubes i)
              acc + dir * vel
            else acc
          else acc) init =
      init + (((l.filter (fun j => decide (i ≠ j) && !(cubes j).orbital)).map
        (fun j => (cubes j).position - (cubes i).position)).map
          (fun d => glm.normalize d * speed glm (cubes i))).sum := by
    intro l
    induction l with
    | nil => intro init; simp
    | cons a l ih =>
      intro init
      rw [List.foldl_cons, ih]
      by_cases hia : i = a <;> cases ho : (cubes a).orbital <;> simp [hia, ho, add_assoc]
  rw [dirArgs_eq]
  unfold accFor
  rw [key, zero_add]

theorem Vec3.sub_eq_zero_iff (a b : Vec3) : a - b = 0 ↔ a = b := by
  constructor
  · intro h
    have hx := congrArg Vec3.x h
    have hy := congrArg Vec3.y h
    have hz := congrArg Vec3.z h
    simp only [Vec3.sub_x, Vec3.sub_y, Vec3.sub_z, Vec3.zero_x, Vec3.zero_y, Vec3.zero_z] at hx hy hz
    ext
    · linarith
    · linarith
    · linarith
  · rintro rfl
    ext <;> simp

/-- The zero vector is among the `normalize` arguments of body `i` exactly
when a non-orbital body other than `i` sits at the position of `i`. -/
theorem zero_mem_dirArgs_iff {n : Nat} (cubes : Fin n → GameEntity M) (i : Fin n) :
    (0 : Vec3) ∈ dirArgs cubes i ↔
      ∃ j, j ≠ i ∧ (cubes j).orbital = false ∧ (cubes j).position = (cubes i).position := by
  rw [dirArgs_eq]
  simp only [List.mem_map, List.mem_filter, List.mem_finRange, true_and, Bool.and_eq_true,
    decide_eq_true_eq, Bool.not_eq_true', Vec3.sub_eq_zero_iff]
  constructor
  · rintro ⟨j, ⟨h1, h2⟩, h3⟩
    exact ⟨j, fun h => h1 h.symm, h2, h3⟩
  · rintro ⟨j, h1, h2, h3⟩
    exact ⟨j, ⟨fun h => h1 h.symm, h2⟩, h3⟩

/-- C14, at the failing input: two bodies spawned at the same camera position,
body 1 non-orbital. For body 0 the pass hands `pos_1 - pos_0 = 0` to
`glm::normalize`: a zero-length direction is normalised. -/
theorem forcePass_normalises_zero_direction :
    (0 : Fin 2) ≠ 1 ∧ (spawnedPair 1).orbital = false ∧
    (spawnedPair 0).position = (spawnedPair 1).position ∧
    dirArgs spawnedPair 0 = [0] ∧
    ¬ (∀ d ∈ dirArgs spawnedPair 0, d ≠ 0) := by
  have h : dirArgs spawnedPair 0 = [0] := by
    rw [dirArgs_eq]
    have hr : List.finRange 2 = [0, 1] := rfl
    rw [hr]
    simp [spawnedPair, GameEntity.ctor, Vec3.sub_eq_zero_iff]
  refine ⟨by decide, rfl, rfl, h, ?_⟩
  rw [h]
  intro hd
  exact hd 0 (List.mem_cons_self _ _) rfl

/-- The pass normalises `pos_j - pos_i` for every `j ≠ i` that is not orbital,
and the acceleration is the sum of the terms built from these vectors; a zero
vector is normalised exactly when such a `j` sits at the position of `i`, so
none is when no non-orbital body shares the position of another body. -/
theorem forcePass_direction_args {n : Nat} (glm : GLM M) (cubes : Fin n → GameEntity M)
    (i : Fin n) :
    (forcePass glm cubes i).acceleration =
      ((dirArgs cubes i).map (fun d => glm.normalize d * speed glm (cubes i))).sum ∧
    ((0 : Vec3) ∈ dirArgs cubes i ↔
      ∃ j, j ≠ i ∧ (cubes j).orbital = false ∧ (cubes j).position = (cubes i).position) ∧
    ((∀ j, j ≠ i → (cubes j).orbital = false → (cubes j).position ≠ (cubes i).position) →
      ∀ d ∈ dirArgs cubes i, d ≠ 0) := by
  refine ⟨by rw [forcePass_eq_accFor, accFor_eq_sum_dirArgs], zero_mem_dirArgs_iff cubes i, ?_⟩
  intro h d hd hz
  rw [hz] at hd
  obtain ⟨j, h1, h2, h3⟩ := (zero_mem_dirArgs_iff cubes i).mp hd
  exact h j h1 h2 h3

/-- Two bodies at different positions, body 0 at the origin and the
non-orbital body 1 at `(1, 0, 0)`: no zero vector is normalised for body 0. -/
theorem forcePass_direction_args_example :
    (∀ j, j ≠ (0 : Fin 2) → (ghostPair j).orbital = false →
      (ghostPair j).position ≠ (ghostPair 0).position) ∧
    (∀ d ∈ dirArgs ghostPair 0, d ≠ 0) := by
  have hne : ∀ j, j ≠ (0 : Fin 2) → (ghostPair j).orbital = false →
      (ghostPair j).position ≠ (ghostPair 0).position := by
    intro j hj _ hp
    have hx := congrArg Vec3.x hp
    simp [ghostPair, GameEntity.ctor, hj] at hx
  exact ⟨hne, (forcePass_direction_args axisGLM ghostPair 0).2.2 hne⟩

end CubularEngine
